import Mathlib

/-!
Verification development for the `pvars` persistent-variables library
(`src/pvars.py`).

The embedding models:
  * `Format` / the `file_format` attribute (which, after `configure` with the
    argument omitted, can hold the Python value `False` instead of a `Format`),
  * Python `dict` contents as insertion-ordered association lists,
  * the filesystem as an association list from path to file content
    (file content is a list of characters, standing for the file's bytes),
  * the stdlib codecs at the level of detail the program relies on:
    `json.dump`/`json.load` are implemented for the flat scalar shapes the
    store holds, `csv.writer`/`csv.reader` likewise, and `pickle` is modelled
    as an opaque self-describing injective byte encoding with a total decoder
    (the spec's BINARY codec contract), tagged with pickle's actual
    protocol-5 prefix bytes `\x80\x05` so that format auto-detection behaves
    as in the source.

Python exceptions are values of `PyErr`; fallible operations return `Except`
or pair their result with the post-state so that theorems can speak about the
on-disk state after a failure.
-/

namespace PVars

/-- The serialization formats of `pvars.Format` (an `enum.Enum`). -/
inductive Format where
  | PICKLE
  | JSON
  | CSV
deriving DecidableEq

/-- The dynamic type of the `file_format` attribute.  It normally holds a
`Format`, but `ModuleContext.configure` defaults the keyword argument
`file_format` to the Python value `False`, so the attribute can also hold a
bool. -/
inductive FileFormat where
  | fmt (f : Format)
  | pybool (b : Bool)
deriving DecidableEq

/-- Python values of the shapes the store traffics in: ints, strings, bools,
`None`, and (for modelling values that are not JSON serializable, such as a
custom object) an opaque object identified by a tag. -/
inductive Value where
  | int (n : Int)
  | str (s : String)
  | bool (b : Bool)
  | pynone
  | obj (tag : Nat)
deriving DecidableEq

/-- Python exceptions raised by the modelled code paths. -/
inductive PyErr where
  | exception (msg : String)
  | valueError (msg : String)
  | typeError (msg : String)
  | runtimeError (msg : String)
  | attributeError (msg : String)
deriving DecidableEq

instance {ε α : Type} [DecidableEq ε] [DecidableEq α] : DecidableEq (Except ε α) :=
  fun x y =>
    match x, y with
    | .error a, .error b =>
      if h : a = b then .isTrue (by rw [h])
      else .isFalse (fun hc => h (Except.error.inj hc))
    | .ok a, .ok b =>
      if h : a = b then .isTrue (by rw [h])
      else .isFalse (fun hc => h (Except.ok.inj hc))
    | .error _, .ok _ => .isFalse (fun hc => Except.noConfusion hc)
    | .ok _, .error _ => .isFalse (fun hc => Except.noConfusion hc)

/-! ### Insertion-ordered association lists (Python `dict` semantics)

A CPython `dict` preserves insertion order; assigning to an existing key
overwrites the value in place, assigning a fresh key appends.  The same
structure models the filesystem (path to file bytes). -/

/-- `d[k]` as an `Option`: the value at the first occurrence of key `k`. -/
def aget {α : Type} : List (String × α) → String → Option α
  | [], _ => Option.none
  | (k', v) :: t, k => if k' = k then some v else aget t k

/-- `d[k] = v`: overwrite in place if the key is present, else append. -/
def aset {α : Type} : List (String × α) → String → α → List (String × α)
  | [], k, v => [(k, v)]
  | (k', v') :: t, k, v => if k' = k then (k, v) :: t else (k', v') :: aset t k v

/-- `del d[k]`: remove the first occurrence of key `k`. -/
def adel {α : Type} : List (String × α) → String → List (String × α)
  | [], _ => []
  | (k', v') :: t, k => if k' = k then t else (k', v') :: adel t k

/-- `d.update(pairs)`: fold `aset` over the pairs, left to right. -/
def aupdate {α : Type} (m : List (String × α)) (u : List (String × α)) :
    List (String × α) :=
  List.foldl (fun a kv => aset a kv.1 kv.2) m u

/-- `list(d.keys())` in order. -/
def akeys {α : Type} (m : List (String × α)) : List String :=
  m.map Prod.fst

/-! ### Decimal rendering and parsing of numbers

`str(n)` for a non-negative int, rendered most-significant digit first, and
the matching parser used by the modelled `json` scalar grammar and the
modelled binary codec. -/

/-- Numeric value of a digit character. -/
def charVal (c : Char) : Nat :=
  c.toNat - 48

/-- Decimal digits of `n`, most significant first; `fuel` bounds the
recursion (any `fuel > 0` with `n ≤ fuel` gives the digits of `n`). -/
def natCharsAux : Nat → Nat → List Char
  | 0, _ => []
  | fuel + 1, n =>
    if n < 10 then [Nat.digitChar n]
    else natCharsAux fuel (n / 10) ++ [Nat.digitChar (n % 10)]

/-- `str(n)` for a natural number. -/
def natChars (n : Nat) : List Char :=
  natCharsAux (n + 1) n

/-- `str(n)` for a Python int (possibly negative). -/
def intChars (n : Int) : List Char :=
  if n < 0 then '-' :: natChars n.natAbs else natChars n.toNat

/-- Consume a maximal run of digit characters, accumulating their value. -/
def parseDigitsAcc (acc : Nat) : List Char → Nat × List Char
  | [] => (acc, [])
  | c :: cs =>
    if c.isDigit then parseDigitsAcc (acc * 10 + charVal c) cs else (acc, c :: cs)

/-- Parse a non-empty run of digits into a natural number. -/
def parseNat : List Char → Option (Nat × List Char)
  | [] => Option.none
  | c :: cs =>
    if c.isDigit then some (parseDigitsAcc (charVal c) cs) else Option.none

/-- Parse an optionally-signed decimal integer. -/
def parseInt : List Char → Option (Int × List Char)
  | [] => Option.none
  | c :: cs =>
    if c = '-' then (parseNat cs).map (fun p => (-(p.1 : Int), p.2))
    else (parseNat (c :: cs)).map (fun p => ((p.1 : Int), p.2))

/-- Does the input start with a digit?  (Where this is false, a digit run
parse stops.) -/
def headDigit : List Char → Bool
  | [] => false
  | c :: _ => c.isDigit

theorem charVal_digitChar (d : Nat) (h : d < 10) : charVal (Nat.digitChar d) = d := by
  interval_cases d <;> decide

theorem isDigit_digitChar (d : Nat) (h : d < 10) : (Nat.digitChar d).isDigit = true := by
  interval_cases d <;> decide

theorem natCharsAux_all_digits :
    ∀ (fuel n : Nat), n ≤ fuel → ∀ c ∈ natCharsAux fuel n, c.isDigit = true := by
  intro fuel
  induction fuel with
  | zero => intro n hn c hc; simp [natCharsAux] at hc
  | succ f ih =>
    intro n hn c hc
    by_cases h10 : n < 10
    · simp [natCharsAux, h10] at hc
      rw [hc]; exact isDigit_digitChar n h10
    · simp [natCharsAux, h10] at hc
      rcases hc with hc | hc
      · exact ih (n / 10) (by omega) c hc
      · rw [hc]; exact isDigit_digitChar _ (Nat.mod_lt n (by omega))

theorem natCharsAux_ne_nil (f n : Nat) : natCharsAux (f + 1) n ≠ [] := by
  by_cases h10 : n < 10 <;> simp [natCharsAux, h10]

theorem natCharsAux_foldl :
    ∀ (fuel n acc : Nat), n ≤ fuel →
    List.foldl (fun a c => a * 10 + charVal c) acc (natCharsAux fuel n) =
      acc * 10 ^ (natCharsAux fuel n).length + n := by
  intro fuel
  induction fuel with
  | zero =>
    intro n acc hn
    have hz : n = 0 := by omega
    subst hz
    simp [natCharsAux]
  | succ f ih =>
    intro n acc hn
    by_cases h10 : n < 10
    · simp [natCharsAux, h10, charVal_digitChar n h10]
    · have hdiv : n / 10 ≤ f := by omega
      simp only [natCharsAux, if_neg h10, List.foldl_append, List.length_append,
        List.length_cons, List.length_nil, List.foldl_cons, List.foldl_nil]
      rw [ih (n / 10) acc hdiv]
      rw [charVal_digitChar _ (Nat.mod_lt n (by omega))]
      rw [pow_succ]
      have hmod := Nat.div_add_mod n 10
      ring_nf
      omega

theorem parseDigitsAcc_digits_append :
    ∀ (xs : List Char), (∀ c ∈ xs, c.isDigit = true) →
    ∀ (acc : Nat) (rest : List Char),
    parseDigitsAcc acc (xs ++ rest) =
      parseDigitsAcc (List.foldl (fun a c => a * 10 + charVal c) acc xs) rest := by
  intro xs
  induction xs with
  | nil => intro _ acc rest; simp
  | cons c t ih =>
    intro h acc rest
    have hc : c.isDigit = true := h c (by simp)
    simp only [List.cons_append, parseDigitsAcc, if_pos hc, List.foldl_cons]
    exact ih (fun d hd => h d (by simp [hd])) _ rest

theorem parseDigitsAcc_stop (acc : Nat) (rest : List Char) (h : headDigit rest = false) :
    parseDigitsAcc acc rest = (acc, rest) := by
  cases rest with
  | nil => rfl
  | cons c cs =>
    simp [headDigit] at h
    simp [parseDigitsAcc, h]

theorem natChars_foldl (n : Nat) :
    List.foldl (fun a c => a * 10 + charVal c) 0 (natChars n) = n := by
  have h := natCharsAux_foldl (n + 1) n 0 (by omega)
  simpa [natChars] using h

theorem parseNat_natChars (n : Nat) (rest : List Char) (h : headDigit rest = false) :
    parseNat (natChars n ++ rest) = some (n, rest) := by
  obtain ⟨c, cs, hcs⟩ : ∃ c cs, natChars n = c :: cs := by
    cases hh : natChars n with
    | nil => exact absurd hh (natCharsAux_ne_nil n n)
    | cons c cs => exact ⟨c, cs, rfl⟩
  have hall : ∀ d ∈ natChars n, d.isDigit = true :=
    natCharsAux_all_digits (n + 1) n (by omega)
  have hc : c.isDigit = true := by
    rw [hcs] at hall; exact hall c (by simp)
  have hcs' : ∀ d ∈ cs, d.isDigit = true := by
    rw [hcs] at hall; intro d hd; exact hall d (by simp [hd])
  have hfold : List.foldl (fun a c => a * 10 + charVal c) (charVal c) cs = n := by
    have h0 := natChars_foldl n
    rw [hcs] at h0
    simpa using h0
  rw [hcs]
  simp only [List.cons_append, parseNat, if_pos hc]
  rw [parseDigitsAcc_digits_append cs hcs' (charVal c) rest, hfold,
    parseDigitsAcc_stop n rest h]

theorem digit_ne_minus (c : Char) (hc : c.isDigit = true) : c ≠ '-' := by
  intro he
  rw [he] at hc
  exact absurd hc (by decide)

theorem parseInt_intChars (n : Int) (rest : List Char) (h : headDigit rest = false) :
    parseInt (intChars n ++ rest) = some (n, rest) := by
  by_cases hn : n < 0
  · simp only [intChars, if_pos hn, List.cons_append, parseInt, if_pos rfl]
    rw [parseNat_natChars _ _ h]
    simp only [Option.map_some']
    have hna : -((n.natAbs : Nat) : Int) = n := by omega
    rw [hna]
    simp
  · simp only [intChars, if_neg hn]
    obtain ⟨c, cs, hcs⟩ : ∃ c cs, natChars n.toNat = c :: cs := by
      cases hh : natChars n.toNat with
      | nil => exact absurd hh (natCharsAux_ne_nil _ _)
      | cons c cs => exact ⟨c, cs, rfl⟩
    have hall : ∀ d ∈ natChars n.toNat, d.isDigit = true :=
      natCharsAux_all_digits (n.toNat + 1) n.toNat (by omega)
    have hc : c.isDigit = true := by
      rw [hcs] at hall; exact hall c (by simp)
    have hne : c ≠ '-' := digit_ne_minus c hc
    rw [hcs]
    simp only [List.cons_append, parseInt, if_neg hne]
    have hp := parseNat_natChars n.toNat rest h
    rw [hcs] at hp
    simp only [List.cons_append] at hp
    rw [hp]
    simp only [Option.map_some']
    have hto : ((n.toNat : Nat) : Int) = n := by omega
    rw [hto]

/-! ### Length-prefixed character runs

Used by the modelled binary codec to delimit strings of arbitrary content:
a run is prefixed with its decimal length and a colon. -/

/-- Length-prefixed encoding of a character run. -/
def strChars (d : List Char) : List Char :=
  natChars d.length ++ ':' :: d

/-- Read back a length-prefixed character run. -/
def parseStr (cs : List Char) : Option (List Char × List Char) :=
  match parseNat cs with
  | some (n, ':' :: rest) =>
    if n ≤ rest.length then some (rest.take n, rest.drop n) else Option.none
  | _ => Option.none

theorem parseStr_strChars (d : List Char) (rest : List Char) :
    parseStr (strChars d ++ rest) = some (d, rest) := by
  have h2 : parseNat (natChars d.length ++ ':' :: (d ++ rest)) =
      some (d.length, ':' :: (d ++ rest)) :=
    parseNat_natChars d.length (':' :: (d ++ rest)) (by rfl)
  simp [strChars, parseStr, h2, List.take_left, List.drop_left]

/-! ### The modelled binary codec

Modelled from the spec: the BINARY codec (stdlib `pickle`, called by
`PersistentDict.dump` with protocol 5 and read back by `pickle.load`) is an
opaque, self-describing byte encoding that round-trips every value shape the
host language can represent.  The stdlib wire format is not reproduced; it is
modelled as a tagged injective encoding whose decoder is its inverse, carrying
pickle protocol 5's actual two leading header bytes `\x80\x05` (so that
format auto-detection in `PersistentDict.load` distinguishes it from JSON and
CSV text exactly as the real loader order does). -/

/-- Concatenate the rendering of each element. -/
def concatChars {α : Type} (f : α → List Char) : List α → List Char
  | [] => []
  | x :: t => f x ++ concatChars f t

/-- Body encoding of one value in the modelled binary codec. -/
def pickleValueChars : Value → List Char
  | .int n => 'I' :: intChars n ++ [';']
  | .str s => 'S' :: strChars s.data
  | .bool true => ['T']
  | .bool false => ['F']
  | .pynone => ['N']
  | .obj t => 'O' :: natChars t ++ [';']

/-- Body encoding of one key/value entry in the modelled binary codec. -/
def pickleEntryChars (kv : String × Value) : List Char :=
  'E' :: strChars kv.1.data ++ pickleValueChars kv.2

/-- `pickle.dumps(dict(self), 5)` in the model: header bytes, the entries,
and a terminating stop byte. -/
def pickleDump (m : List (String × Value)) : List Char :=
  '\x80' :: '\x05' :: concatChars pickleEntryChars m ++ ['.']

/-- Decode one value of the modelled binary codec. -/
def parsePickleValue : List Char → Option (Value × List Char)
  | [] => Option.none
  | c :: cs =>
    if c = 'I' then
      match parseInt cs with
      | some (n, ';' :: rest) => some (.int n, rest)
      | _ => Option.none
    else if c = 'S' then
      (parseStr cs).map (fun p => (Value.str (String.mk p.1), p.2))
    else if c = 'T' then some (.bool true, cs)
    else if c = 'F' then some (.bool false, cs)
    else if c = 'N' then some (.pynone, cs)
    else if c = 'O' then
      match parseNat cs with
      | some (t, ';' :: rest) => some (.obj t, rest)
      | _ => Option.none
    else Option.none

/-- Decode the entry list of the modelled binary codec (fuel-bounded). -/
def parsePickleEntries : Nat → List Char → Option (List (String × Value) × List Char)
  | _, '.' :: rest => some ([], rest)
  | 0, _ => Option.none
  | fuel + 1, 'E' :: cs =>
    match parseStr cs with
    | some (kcs, cs1) =>
      match parsePickleValue cs1 with
      | some (v, cs2) =>
        match parsePickleEntries fuel cs2 with
        | some (entries, cs3) => some ((String.mk kcs, v) :: entries, cs3)
        | _ => Option.none
      | _ => Option.none
    | _ => Option.none
  | _, _ => Option.none

/-- `pickle.load` on a binary-mode file in the model: requires the protocol-5
header, decodes the entries, and (like the real `pickle.load`) ignores any
bytes after the stop byte. -/
def pickleLoadBytes (content : List Char) : Option (List (String × Value)) :=
  match content with
  | '\x80' :: '\x05' :: rest =>
    match parsePickleEntries rest.length rest with
    | some (entries, _) => some entries
    | _ => Option.none
  | _ => Option.none

/-- `pickle.load` on a text-mode file always fails: it requires a binary file
object (`TypeError: a bytes-like object is required`). -/
def pickleLoadText (_content : List Char) : Option (List (String × Value)) :=
  Option.none

theorem parsePickleValue_inv (v : Value) (rest : List Char) :
    parsePickleValue (pickleValueChars v ++ rest) = some (v, rest) := by
  cases v with
  | int n =>
    have h2 : parseInt (intChars n ++ ';' :: rest) = some (n, ';' :: rest) :=
      parseInt_intChars n (';' :: rest) (by rfl)
    simp [pickleValueChars, parsePickleValue, h2]
  | str s =>
    cases s with
    | mk d =>
      have h2 := parseStr_strChars d rest
      simp [pickleValueChars, parsePickleValue, h2]
  | bool b => cases b <;> rfl
  | pynone => rfl
  | obj t =>
    have h2 : parseNat (natChars t ++ ';' :: rest) = some (t, ';' :: rest) :=
      parseNat_natChars t (';' :: rest) (by rfl)
    simp [pickleValueChars, parsePickleValue, h2]

theorem pickleEntryChars_length_pos (kv : String × Value) :
    1 ≤ (pickleEntryChars kv).length := by
  simp [pickleEntryChars]

theorem concatChars_length_ge {α : Type} (f : α → List Char)
    (hf : ∀ x, 1 ≤ (f x).length) :
    ∀ l : List α, l.length ≤ (concatChars f l).length := by
  intro l
  induction l with
  | nil => simp [concatChars]
  | cons x t ih =>
    have hx := hf x
    simp only [concatChars, List.length_append, List.length_cons]
    omega

theorem parsePickleEntries_inv :
    ∀ (m : List (String × Value)) (fuel : Nat) (rest : List Char), m.length ≤ fuel →
    parsePickleEntries fuel (concatChars pickleEntryChars m ++ '.' :: rest) =
      some (m, rest) := by
  intro m
  induction m with
  | nil =>
    intro fuel rest _
    cases fuel <;> simp [concatChars, parsePickleEntries]
  | cons kv t ih =>
    intro fuel rest hf
    cases fuel with
    | zero => simp at hf
    | succ f =>
      obtain ⟨k, v⟩ := kv
      obtain ⟨kd⟩ := k
      have h1 := parseStr_strChars kd
        (pickleValueChars v ++ (concatChars pickleEntryChars t ++ '.' :: rest))
      have h2 := parsePickleValue_inv v (concatChars pickleEntryChars t ++ '.' :: rest)
      have h3 := ih f rest (by simp at hf ⊢; omega)
      simp [concatChars, pickleEntryChars, parsePickleEntries, h1, h2, h3]

theorem pickleLoadBytes_pickleDump (m : List (String × Value)) :
    pickleLoadBytes (pickleDump m) = some m := by
  have hlen : m.length ≤ (concatChars pickleEntryChars m ++ ['.']).length := by
    have hc := concatChars_length_ge pickleEntryChars pickleEntryChars_length_pos m
    simp only [List.length_append, List.length_cons, List.length_nil]
    omega
  have h := parsePickleEntries_inv m ((concatChars pickleEntryChars m ++ ['.']).length) [] hlen
  simp only [pickleDump, pickleLoadBytes]
  split
  · rename_i rest heq
    injection heq with h1 heq1
    injection heq1 with h2 heq2
    rw [← heq2]
    simp only [List.append_eq]
    rw [h]
  · rename_i hne
    exact absurd rfl (hne _)

theorem pickleLoadBytes_head_ne (c : Char) (cs : List Char) (h : c ≠ '\x80') :
    pickleLoadBytes (c :: cs) = Option.none := by
  unfold pickleLoadBytes
  split
  · rename_i rest heq
    injection heq with h1 _
    exact absurd h1 h
  · rfl

/-! ### The JSON codec

`json.dump(dict(self), fileobj)` with default options renders the mapping as
a JSON object with separators of a comma-space and a colon-space; `json.load`
parses it back.  The model implements the grammar for the flat scalar value
shapes of `Value`; arrays, nested objects, numeric floats, and the
`ensure_ascii`/control-character escapes of real `json` are outside the
modelled shapes (theorems about JSON quantify over `jsonSafe` data). -/

/-- Escaping applied by `json.dump` to the characters that the modelled
shapes can contain: a quote or backslash is preceded by a backslash. -/
def jsonEscape : List Char → List Char
  | [] => []
  | c :: cs =>
    if c = '"' ∨ c = '\\' then '\\' :: c :: jsonEscape cs else c :: jsonEscape cs

/-- Scan a JSON string body up to its closing quote, undoing the escapes. -/
def jsonScanStr : List Char → Option (List Char × List Char)
  | [] => Option.none
  | c :: cs =>
    if c = '"' then some ([], cs)
    else if c = '\\' then
      match cs with
      | d :: ds =>
        if d = '"' ∨ d = '\\' then (jsonScanStr ds).map (fun p => (d :: p.1, p.2))
        else Option.none
      | [] => Option.none
    else (jsonScanStr cs).map (fun p => (c :: p.1, p.2))

/-- `json.dump`'s rendering of one scalar value (`Option.none` models the
`TypeError` raised for a value that is not JSON serializable, such as a
custom object). -/
def jsonValueChars : Value → Option (List Char)
  | .int n => some (intChars n)
  | .str s => some ('"' :: jsonEscape s.data ++ ['"'])
  | .bool true => some ['t', 'r', 'u', 'e']
  | .bool false => some ['f', 'a', 'l', 's', 'e']
  | .pynone => some ['n', 'u', 'l', 'l']
  | .obj _ => Option.none

/-- One rendered `"key": value` member. -/
def jsonEntryChars (kv : String × Value) : Option (List Char) :=
  (jsonValueChars kv.2).map
    (fun vc => '"' :: jsonEscape kv.1.data ++ '"' :: ':' :: ' ' :: vc)

/-- The rendered members joined by a comma-space separator. -/
def jsonEntriesChars : List (String × Value) → Option (List Char)
  | [] => some []
  | [kv] => jsonEntryChars kv
  | kv :: t =>
    match jsonEntryChars kv, jsonEntriesChars t with
    | some e, some r => some (e ++ ',' :: ' ' :: r)
    | _, _ => Option.none

/-- `json.dump(dict(self), fileobj)` in the model. -/
def jsonDumpChars (m : List (String × Value)) : Option (List Char) :=
  (jsonEntriesChars m).map (fun e => '{' :: e ++ ['}'])

/-- JSON whitespace. -/
def isJsonWs (c : Char) : Bool :=
  c = ' ' ∨ c = '\t' ∨ c = '\n' ∨ c = '\r'

/-- Drop leading JSON whitespace. -/
def skipWs : List Char → List Char
  | [] => []
  | c :: cs => if isJsonWs c then skipWs cs else c :: cs

/-- Parse one scalar JSON value of the modelled shapes. -/
def parseJsonScalar : List Char → Option (Value × List Char)
  | [] => Option.none
  | c :: cs =>
    if c = '"' then (jsonScanStr cs).map (fun p => (Value.str (String.mk p.1), p.2))
    else if c = 't' then
      match cs with
      | 'r' :: 'u' :: 'e' :: rest => some (.bool true, rest)
      | _ => Option.none
    else if c = 'f' then
      match cs with
      | 'a' :: 'l' :: 's' :: 'e' :: rest => some (.bool false, rest)
      | _ => Option.none
    else if c = 'n' then
      match cs with
      | 'u' :: 'l' :: 'l' :: rest => some (.pynone, rest)
      | _ => Option.none
    else if c = '-' ∨ c.isDigit then (parseInt (c :: cs)).map (fun p => (.int p.1, p.2))
    else Option.none

/-- Parse the members of a JSON object after its opening brace, up to and
including the closing brace (fuel-bounded; at least one member). -/
def parseJsonMembers : Nat → List Char → Option (List (String × Value) × List Char)
  | 0, _ => Option.none
  | fuel + 1, cs =>
    match skipWs cs with
    | '"' :: cs1 =>
      match jsonScanStr cs1 with
      | some (kcs, cs2) =>
        match skipWs cs2 with
        | ':' :: cs3 =>
          match parseJsonScalar (skipWs cs3) with
          | some (v, cs4) =>
            match skipWs cs4 with
            | ',' :: cs5 =>
              match parseJsonMembers fuel cs5 with
              | some (ms, cs6) => some ((String.mk kcs, v) :: ms, cs6)
              | _ => Option.none
            | '}' :: cs5 => some ([(String.mk kcs, v)], cs5)
            | _ => Option.none
          | _ => Option.none
        | _ => Option.none
      | _ => Option.none
    | _ => Option.none

/-- Parse a JSON object (the only top-level shape under which
`self.update(json.load(fileobj))` succeeds in the model). -/
def parseJsonObject (cs : List Char) : Option (List (String × Value) × List Char) :=
  match skipWs cs with
  | '{' :: cs1 =>
    match skipWs cs1 with
    | '}' :: cs2 => some ([], cs2)
    | _ => parseJsonMembers cs1.length cs1
  | _ => Option.none

/-- `json.load` on the whole file followed by `self.update(...)`'s
requirement that the result be a mapping: the content must be one JSON
object with nothing but whitespace after it. -/
def jsonLoadText (content : List Char) : Option (List (String × Value)) :=
  match parseJsonObject content with
  | some (m, rest) => if skipWs rest = [] then some m else Option.none
  | _ => Option.none

/-- A character the modelled JSON grammar round-trips verbatim: printable
ASCII.  (Real `json.dump` escapes control and non-ASCII characters with
`\uXXXX` sequences, which the model does not implement.) -/
def jsonSafeChar (c : Char) : Bool :=
  32 ≤ c.toNat ∧ c.toNat ≤ 126

/-- A string of modelled JSON-safe characters. -/
def jsonSafeStr (s : String) : Bool :=
  s.data.all jsonSafeChar

/-- A value of the shapes the modelled JSON codec round-trips. -/
def jsonSafeValue : Value → Bool
  | .str s => jsonSafeStr s
  | .obj _ => false
  | _ => true

/-- A mapping of the shapes the modelled JSON codec round-trips: distinct
keys (a JSON object with duplicate keys collapses), safe keys and values. -/
def jsonSafeMapping (m : List (String × Value)) : Bool :=
  (akeys m).Nodup && m.all (fun kv => jsonSafeStr kv.1 && jsonSafeValue kv.2)

theorem jsonScanStr_jsonEscape (d : List Char) :
    ∀ rest, jsonScanStr (jsonEscape d ++ '"' :: rest) = some (d, rest) := by
  induction d with
  | nil =>
    intro rest
    simp only [jsonEscape, List.nil_append]
    unfold jsonScanStr
    simp
  | cons c t ih =>
    intro rest
    by_cases h1 : c = '"' ∨ c = '\\'
    · simp only [jsonEscape, if_pos h1, List.cons_append]
      unfold jsonScanStr
      simp [h1, ih rest]
    · have hne : ¬(c = '"' ∨ c = '\\') := h1
      push_neg at h1
      simp only [jsonEscape, if_neg hne, List.cons_append]
      unfold jsonScanStr
      simp [h1.1, h1.2, ih rest]

theorem digit_notin (c : Char) (hc : c.isDigit = true) :
    c ≠ '"' ∧ c ≠ 't' ∧ c ≠ 'f' ∧ c ≠ 'n' := by
  refine ⟨?_, ?_, ?_, ?_⟩ <;>
    (intro he; rw [he] at hc; exact absurd hc (by decide))

theorem skipWs_cons_of_not_ws (c : Char) (x : List Char) (h : isJsonWs c = false) :
    skipWs (c :: x) = c :: x := by
  simp [skipWs, h]

theorem digit_not_ws (c : Char) (hc : c.isDigit = true) : isJsonWs c = false := by
  have h1 : c ≠ ' ' := by intro he; rw [he] at hc; exact absurd hc (by decide)
  have h2 : c ≠ '\t' := by intro he; rw [he] at hc; exact absurd hc (by decide)
  have h3 : c ≠ '\n' := by intro he; rw [he] at hc; exact absurd hc (by decide)
  have h4 : c ≠ '\r' := by intro he; rw [he] at hc; exact absurd hc (by decide)
  simp [isJsonWs, h1, h2, h3, h4]

theorem natChars_head_digit (n : Nat) :
    ∃ c cs, natChars n = c :: cs ∧ c.isDigit = true := by
  obtain ⟨c, cs, hcs⟩ : ∃ c cs, natChars n = c :: cs := by
    cases hh : natChars n with
    | nil => exact absurd hh (natCharsAux_ne_nil n n)
    | cons c cs => exact ⟨c, cs, rfl⟩
  refine ⟨c, cs, hcs, ?_⟩
  have hall := natCharsAux_all_digits (n + 1) n (by omega)
  rw [natChars] at hcs
  rw [hcs] at hall
  exact hall c (by simp)

theorem parseJsonScalar_inv (v : Value) (vc : List Char) (rest : List Char)
    (hvc : jsonValueChars v = some vc) (h : headDigit rest = false) :
    parseJsonScalar (vc ++ rest) = some (v, rest) := by
  cases v with
  | int n =>
    have hvc' : vc = intChars n := by
      simp only [jsonValueChars, Option.some.injEq] at hvc
      exact hvc.symm
    subst hvc'
    by_cases hn : n < 0
    · have h2 := parseInt_intChars n rest h
      simp only [intChars, if_pos hn, List.cons_append] at h2 ⊢
      unfold parseJsonScalar
      simp [h2]
    · have h2 := parseInt_intChars n rest h
      simp only [intChars, if_neg hn] at h2 ⊢
      obtain ⟨c, cs, hcs, hcdig⟩ := natChars_head_digit n.toNat
      obtain ⟨hq, ht, hf, hn2⟩ := digit_notin c hcdig
      rw [hcs] at h2 ⊢
      simp only [List.cons_append] at h2 ⊢
      unfold parseJsonScalar
      simp [hq, ht, hf, hn2, hcdig, h2]
  | str s =>
    obtain ⟨sd⟩ := s
    have hvc' : vc = '"' :: jsonEscape sd ++ ['"'] := by
      simp only [jsonValueChars, Option.some.injEq] at hvc
      exact hvc.symm
    subst hvc'
    have h2 := jsonScanStr_jsonEscape sd rest
    unfold parseJsonScalar
    simp [h2]
  | bool b =>
    cases b with
    | true =>
      simp only [jsonValueChars, Option.some.injEq] at hvc
      rw [← hvc]
      unfold parseJsonScalar
      simp
    | false =>
      simp only [jsonValueChars, Option.some.injEq] at hvc
      rw [← hvc]
      unfold parseJsonScalar
      simp
  | pynone =>
    simp only [jsonValueChars, Option.some.injEq] at hvc
    rw [← hvc]
    unfold parseJsonScalar
    simp
  | obj t => simp [jsonValueChars] at hvc

theorem jsonValueChars_head (v : Value) (vc : List Char)
    (hvc : jsonValueChars v = some vc) :
    ∃ c cs, vc = c :: cs ∧ isJsonWs c = false := by
  cases v with
  | int n =>
    have hvc' : vc = intChars n := by
      simp only [jsonValueChars, Option.some.injEq] at hvc
      exact hvc.symm
    subst hvc'
    by_cases hn : n < 0
    · exact ⟨'-', natChars n.natAbs, by simp [intChars, hn], by decide⟩
    · obtain ⟨c, cs, hcs, hdig⟩ := natChars_head_digit n.toNat
      exact ⟨c, cs, by simp [intChars, hn, hcs], digit_not_ws c hdig⟩
  | str s =>
    refine ⟨'"', jsonEscape s.data ++ ['"'], ?_, by decide⟩
    simp only [jsonValueChars, Option.some.injEq] at hvc
    rw [← hvc]
    rfl
  | bool b =>
    cases b with
    | true =>
      refine ⟨'t', ['r', 'u', 'e'], ?_, by decide⟩
      simp only [jsonValueChars, Option.some.injEq] at hvc
      rw [← hvc]
    | false =>
      refine ⟨'f', ['a', 'l', 's', 'e'], ?_, by decide⟩
      simp only [jsonValueChars, Option.some.injEq] at hvc
      rw [← hvc]
  | pynone =>
    refine ⟨'n', ['u', 'l', 'l'], ?_, by decide⟩
    simp only [jsonValueChars, Option.some.injEq] at hvc
    rw [← hvc]
  | obj t => simp [jsonValueChars] at hvc

theorem parseJsonMembers_ws (f : Nat) (c : Char) (x : List Char)
    (hc : isJsonWs c = true) :
    parseJsonMembers (f + 1) (c :: x) = parseJsonMembers (f + 1) x := by
  unfold parseJsonMembers
  rw [show skipWs (c :: x) = skipWs x by simp [skipWs, hc]]

theorem jsonEntriesChars_length :
    ∀ (m : List (String × Value)) (e : List Char), jsonEntriesChars m = some e →
    m.length ≤ e.length := by
  intro m
  induction m with
  | nil =>
    intro e he
    simp [jsonEntriesChars] at he
    simp [← he]
  | cons kv t ih =>
    intro e he
    cases t with
    | nil =>
      simp only [jsonEntriesChars, jsonEntryChars, Option.map_eq_some'] at he
      obtain ⟨vc, _, hE⟩ := he
      rw [← hE]
      simp
    | cons kv2 t2 =>
      cases h1 : jsonEntryChars kv with
      | none => simp [jsonEntriesChars, h1] at he
      | some ekv =>
        cases h2 : jsonEntriesChars (kv2 :: t2) with
        | none => simp [jsonEntriesChars, h1, h2] at he
        | some e2 =>
          simp only [jsonEntriesChars, h1, h2, Option.some.injEq] at he
          have hih := ih e2 h2
          have hekv : 1 ≤ ekv.length := by
            simp only [jsonEntryChars, Option.map_eq_some'] at h1
            obtain ⟨vc, _, hE⟩ := h1
            rw [← hE]
            simp
          rw [← he]
          simp only [List.length_append, List.length_cons]
          simp only [List.length_cons] at hih ⊢
          omega

theorem parseJsonMembers_inv :
    ∀ (m : List (String × Value)) (e : List Char), jsonEntriesChars m = some e →
    m ≠ [] →
    ∀ (fuel : Nat), m.length ≤ fuel →
    ∀ rest : List Char, parseJsonMembers fuel (e ++ '}' :: rest) = some (m, rest) := by
  intro m
  induction m with
  | nil => intro e _ hne; exact absurd rfl hne
  | cons kv t ih =>
    intro e he _ fuel hfuel rest
    obtain ⟨k, v⟩ := kv
    obtain ⟨kd⟩ := k
    cases fuel with
    | zero => simp at hfuel
    | succ f =>
      cases t with
      | nil =>
        simp only [jsonEntriesChars, jsonEntryChars, Option.map_eq_some'] at he
        obtain ⟨vc, hvc, hE⟩ := he
        rw [← hE]
        obtain ⟨c0, cs0, hvc0, hc0ws⟩ := jsonValueChars_head v vc hvc
        have hscan := jsonScanStr_jsonEscape kd (':' :: ' ' :: (vc ++ '}' :: rest))
        have hscalar := parseJsonScalar_inv v vc ('}' :: rest) hvc (by rfl)
        have hsv : skipWs (vc ++ '}' :: rest) = vc ++ '}' :: rest := by
          rw [hvc0]
          exact skipWs_cons_of_not_ws c0 (cs0 ++ '}' :: rest) hc0ws
        unfold parseJsonMembers
        simp [skipWs, isJsonWs, hscan, hsv, hscalar]
      | cons kv2 t2 =>
        cases h1 : jsonEntryChars (String.mk kd, v) with
        | none => simp [jsonEntriesChars, h1] at he
        | some ekv =>
          cases h2 : jsonEntriesChars (kv2 :: t2) with
          | none => simp [jsonEntriesChars, h1, h2] at he
          | some e2 =>
            simp only [jsonEntriesChars, h1, h2, Option.some.injEq] at he
            simp only [jsonEntryChars, Option.map_eq_some'] at h1
            obtain ⟨vc, hvc, hE⟩ := h1
            rw [← he, ← hE]
            obtain ⟨c0, cs0, hvc0, hc0ws⟩ := jsonValueChars_head v vc hvc
            have hscan := jsonScanStr_jsonEscape kd
              (':' :: ' ' :: (vc ++ ',' :: ' ' :: (e2 ++ '}' :: rest)))
            have hscalar := parseJsonScalar_inv v vc
              (',' :: ' ' :: (e2 ++ '}' :: rest)) hvc (by rfl)
            have hsv : skipWs (vc ++ ',' :: ' ' :: (e2 ++ '}' :: rest)) =
                vc ++ ',' :: ' ' :: (e2 ++ '}' :: rest) := by
              rw [hvc0]
              exact skipWs_cons_of_not_ws c0 _ hc0ws
            have hf1 : 1 ≤ f := by
              simp only [List.length_cons] at hfuel
              omega
            obtain ⟨f2, hf2⟩ : ∃ f2, f = f2 + 1 := ⟨f - 1, by omega⟩
            have hih := ih e2 h2 (by simp) (f2 + 1)
              (by simp only [List.length_cons] at hfuel ⊢; omega) rest
            have hws : parseJsonMembers (f2 + 1) (' ' :: (e2 ++ '}' :: rest)) =
                some (kv2 :: t2, rest) := by
              rw [parseJsonMembers_ws f2 ' ' (e2 ++ '}' :: rest) (by decide)]
              exact hih
            subst hf2
            unfold parseJsonMembers
            simp [skipWs, isJsonWs, hscan, hsv, hscalar, hws]

theorem jsonEntriesChars_head (m : List (String × Value)) (e : List Char)
    (hm : m ≠ []) (he : jsonEntriesChars m = some e) : ∃ e', e = '"' :: e' := by
  cases m with
  | nil => exact absurd rfl hm
  | cons kv t =>
    cases t with
    | nil =>
      simp only [jsonEntriesChars, jsonEntryChars, Option.map_eq_some'] at he
      obtain ⟨vc, _, hE⟩ := he
      exact ⟨_, hE.symm⟩
    | cons kv2 t2 =>
      cases h1 : jsonEntryChars kv with
      | none => simp [jsonEntriesChars, h1] at he
      | some ekv =>
        cases h2 : jsonEntriesChars (kv2 :: t2) with
        | none => simp [jsonEntriesChars, h1, h2] at he
        | some e2 =>
          simp only [jsonEntriesChars, h1, h2, Option.some.injEq] at he
          simp only [jsonEntryChars, Option.map_eq_some'] at h1
          obtain ⟨vc, _, hE⟩ := h1
          refine ⟨(jsonEscape kv.1.data ++ '"' :: ':' :: ' ' :: vc) ++ ',' :: ' ' :: e2, ?_⟩
          rw [← he, ← hE]
          simp

theorem jsonLoadText_jsonDump (m : List (String × Value)) (content : List Char)
    (h : jsonDumpChars m = some content) :
    jsonLoadText content = some m := by
  cases m with
  | nil =>
    simp only [jsonDumpChars, jsonEntriesChars, Option.map_some', Option.some.injEq] at h
    rw [← h]
    rfl
  | cons kv t =>
    simp only [jsonDumpChars, Option.map_eq_some'] at h
    obtain ⟨e, he, hC⟩ := h
    obtain ⟨e', he'⟩ := jsonEntriesChars_head (kv :: t) e (by simp) he
    subst he'
    have hlen := jsonEntriesChars_length (kv :: t) ('"' :: e') he
    have hmem := parseJsonMembers_inv (kv :: t) ('"' :: e') he (by simp)
      (('"' :: e') ++ ['}']).length
      (by simp only [List.length_append, List.length_cons] at hlen ⊢; omega) []
    rw [← hC]
    unfold jsonLoadText parseJsonObject
    simp only [List.cons_append, List.append_nil, List.length_cons, List.length_append,
      List.length_nil] at hmem ⊢
    simp [skipWs, isJsonWs, hmem]

/-! ### The CSV codec

`csv.writer(fileobj).writerows(self.items())` under the default (excel)
dialect: one `key,value` row per entry with carriage-return/newline
terminators and minimal quoting; each field is the `str()` of the value
(the csv module writes `None` as the empty string).  `csv.reader` yields
every field back as a raw string — values do not keep their types. -/

/-- The `str()` rendering `csv.writer` applies to a field of the modelled
shapes (`None` becomes the empty string; a custom object's repr is modelled
deterministically from its tag). -/
def pyStrCsv : Value → List Char
  | .int n => intChars n
  | .str s => s.data
  | .bool true => ['T', 'r', 'u', 'e']
  | .bool false => ['F', 'a', 'l', 's', 'e']
  | .pynone => []
  | .obj t => '<' :: 'o' :: 'b' :: 'j' :: ' ' :: natChars t ++ ['>']

/-- Minimal quoting: a field is quoted when it contains the delimiter, a
quote, or a line-terminator character. -/
def csvNeedsQuote (cs : List Char) : Bool :=
  cs.any (fun c => c = ',' ∨ c = '"' ∨ c = '\r' ∨ c = '\n')

/-- Render one field, quoting it (doubling embedded quotes) when needed. -/
def csvField (cs : List Char) : List Char :=
  if csvNeedsQuote cs then
    '"' :: concatChars (fun c => if c = '"' then ['"', '"'] else [c]) cs ++ ['"']
  else cs

/-- `csv.writer(fileobj).writerows(self.items())` in the model. -/
def csvDump (m : List (String × Value)) : List Char :=
  concatChars
    (fun kv => csvField kv.1.data ++ ',' :: csvField (pyStrCsv kv.2) ++ ['\r', '\n']) m

/-- Scan one unquoted csv field up to a delimiter or line terminator. -/
def csvScanField : List Char → List Char × List Char
  | [] => ([], [])
  | c :: cs =>
    if c = ',' ∨ c = '\r' ∨ c = '\n' then ([], c :: cs)
    else
      let p := csvScanField cs
      (c :: p.1, p.2)

/-- Scan one quoted csv field body after its opening quote (a doubled quote
is an embedded quote). -/
def csvScanQuoted : Nat → List Char → Option (List Char × List Char)
  | 0, _ => Option.none
  | _ + 1, [] => Option.none
  | fuel + 1, c :: cs =>
    if c = '"' then
      match cs with
      | '"' :: cs2 => (csvScanQuoted fuel cs2).map (fun p => ('"' :: p.1, p.2))
      | _ => some ([], cs)
    else (csvScanQuoted fuel cs).map (fun p => (c :: p.1, p.2))

/-- Parse one csv row (fuel bounds the number of fields). -/
def csvParseRow : Nat → List Char → Option (List (List Char) × List Char)
  | 0, _ => Option.none
  | fuel + 1, cs =>
    match
      (match cs with
       | '"' :: cs1 => csvScanQuoted cs1.length cs1
       | _ => some (csvScanField cs)) with
    | some (field, after) =>
      match after with
      | ',' :: rest => (csvParseRow fuel rest).map (fun q => (field :: q.1, q.2))
      | '\r' :: '\n' :: rest => some ([field], rest)
      | '\n' :: rest => some ([field], rest)
      | [] => some ([field], [])
      | _ => Option.none
    | Option.none => Option.none

/-- Parse all csv rows of the content. -/
def csvParseRows : Nat → List Char → Option (List (List (List Char)))
  | _, [] => some []
  | 0, _ => Option.none
  | fuel + 1, cs =>
    match csvParseRow cs.length cs with
    | some (row, rest) => (csvParseRows fuel rest).map (fun rs => row :: rs)
    | Option.none => Option.none

/-- `dict.update` over the rows: each row must be a two-element sequence,
whose fields arrive as raw strings. -/
def csvRowsPairs : List (List (List Char)) → Option (List (String × Value))
  | [] => some []
  | [k, v] :: t =>
    (csvRowsPairs t).map (fun ps => (String.mk k, Value.str (String.mk v)) :: ps)
  | _ => Option.none

/-- `self.update(csv.reader(fileobj))` on a text-mode file in the model. -/
def csvLoadText (content : List Char) : Option (List (String × Value)) :=
  match csvParseRows content.length content with
  | some rows => csvRowsPairs rows
  | Option.none => Option.none

/-- Iterating `csv.reader` over a binary-mode file raises
(`_csv.Error: iterator should return strings, not bytes`). -/
def csvLoadBytes (_content : List Char) : Option (List (String × Value)) :=
  Option.none

/-- `json.load` detects the encoding of a binary-mode file and behaves as in
text mode. -/
def jsonLoadBytes (content : List Char) : Option (List (String × Value)) :=
  jsonLoadText content

/-! ### The store and the contexts -/

/-- The filesystem: a mapping from path to file content. -/
abbrev FS : Type := List (String × List Char)

/-- `PersistentDict.load(filename)`: try the loaders
`(pickle.load, json.load, csv.reader)` from most to least restrictive, each
with mode `"r"` and then `"rb"`, accepting the first attempt that does not
raise; the accepted object is `self.update`-ed into the freshly-constructed
(empty) dict.  `Option.none` models the final
`raise ValueError("File not in a supported format")`.  (An attempt that
partially updates the dict before raising mid-iteration is not modelled;
every input this development evaluates `load` on fails, if it fails, before
adding an entry.) -/
def loadContent (content : List Char) : Option (List (String × Value)) :=
  (((((pickleLoadText content).orElse fun _ =>
        pickleLoadBytes content).orElse fun _ =>
        jsonLoadText content).orElse fun _ =>
        jsonLoadBytes content).orElse fun _ =>
        csvLoadText content).orElse fun _ =>
        csvLoadBytes content

/-- The in-memory state of a `PersistentDict`: the dict items (the class
subclasses `dict`), the backing `file_name`, the `file_format` attribute,
and the format-specific `dump_args`. -/
structure PersistentDict where
  data : List (String × Value)
  file_name : String
  file_format : FileFormat
  dump_args : List (String × Value)
deriving DecidableEq

/-- `PersistentDict.dump(fileobj)`: encode the whole mapping in the
configured format; returns the encoded bytes or the exception raised.  A
non-serializable value under JSON raises `TypeError`.  When `file_format`
is not a `Format` (e.g. the bool `False` left by `configure`), no branch
matches and the `else` branch's `self.file_format.name` raises
`AttributeError`.  A nonempty `dump_args` under CSV raises `TypeError`
(`writerows` accepts no keyword arguments); under JSON and PICKLE a
nonempty `dump_args` changes the stdlib encoders in ways not tracked here,
and every theorem below evaluates `dump` only with empty `dump_args`. -/
def PersistentDict.dump (store : PersistentDict) : Except PyErr (List Char) :=
  match store.file_format with
  | .fmt .CSV =>
    if store.dump_args.isEmpty then .ok (csvDump store.data)
    else .error (.typeError ("writerows() takes no keyword arguments"))
  | .fmt .JSON =>
    match jsonDumpChars store.data with
    | some cs => .ok cs
    | Option.none => .error (.typeError ("Object is not JSON serializable"))
  | .fmt .PICKLE => .ok (pickleDump store.data)
  | .pybool _ => .error (.attributeError ("bool object has no attribute name"))

/-- `PersistentDict.sync()`: encode, write to the `.tmp` sibling, and
atomically rename it over the target (`shutil.move`).  On an encode or
write failure the temporary file is removed (`os.remove`) and the exception
re-raised.  The result pairs the outcome with the filesystem afterwards. -/
def PersistentDict.sync (store : PersistentDict) (fs : FS) :
    Except PyErr Unit × FS :=
  match store.dump with
  | .error e => (.error e, adel fs (store.file_name ++ (".tmp")))
  | .ok cs =>
    (.ok (),
     aset (adel (aset fs (store.file_name ++ (".tmp")) cs) (store.file_name ++ (".tmp")))
       store.file_name cs)

/-- `PersistentDict.__init__(filename, fileformat=Format.PICKLE,
dump_args=None)`: record the options; if the file exists, load it,
swallowing the `ValueError` a format-exhausted `load` raises (`except
ValueError: pass`); if the file does not exist, raise
`Exception("File not available")`.  The trailing `dict.__init__(self)` call
takes no items and clears nothing. -/
def PersistentDict.init (fs : FS) (filename : String) (fileformat : FileFormat)
    (dump_args : Option (List (String × Value))) : Except PyErr PersistentDict :=
  match aget fs filename with
  | some content =>
    match loadContent content with
    | some m =>
      .ok ⟨aupdate [] m, filename, fileformat,
        match dump_args with | some l => l | Option.none => []⟩
    | Option.none =>
      .ok ⟨[], filename, fileformat,
        match dump_args with | some l => l | Option.none => []⟩
  | Option.none => .error (.exception ("File not available"))

/-- A persistent variable: its storage name and zero-argument value
callback. -/
structure PVar where
  name : String
  callback : Unit → Value

/-- `PVar.value()`. -/
def PVar.value (p : PVar) : Value :=
  p.callback ()

/-- A `ModuleContext`: the auto-save flag, the resolved path, the backing
store, and the registered variables. -/
structure ModuleContext where
  auto_save : Bool
  path : String
  db : PersistentDict
  pvar_index : List (String × PVar)

/-- `ModuleContext.__init__(path)`: auto-save starts `True`, the store is
opened with `Format.PICKLE`, no variables are registered. -/
def ModuleContext.init (fs : FS) (path : String) : Except PyErr ModuleContext :=
  match PersistentDict.init fs path (.fmt .PICKLE) Option.none with
  | .ok db => .ok ⟨true, path, db, []⟩
  | .error e => .error e

/-- `ModuleContext.make_dict(default, name)`: the registration result wraps
the stored value when `name` is a key of the store, else the supplied
default, and the `(name, PVar)` pair is recorded.  (The `Idict` wrapper
forwards later item writes to `save`; the wrapper object itself is not
modelled — the registration result here is the chosen mapping value.) -/
def ModuleContext.make_dict (ctx : ModuleContext) (default : Value) (name : String) :
    Value × ModuleContext :=
  let i_dict :=
    match aget ctx.db.data name with
    | some v => v
    | Option.none => default
  let p_var : PVar := ⟨name, fun _ => i_dict⟩
  (i_dict, { ctx with pvar_index := aset ctx.pvar_index p_var.name p_var })

/-- `ModuleContext.make_var(default, callback)`: the storage name is derived
from the source text of the lambda via `inspect.getsource` and a regular
expression; that introspection is out-of-scope caller-identity inspection
and is modelled as the already-derived `var_name` input.  The
`(name, PVar)` pair is recorded; the call returns the supplied default when
the name is absent from the store and the stored value when present. -/
def ModuleContext.make_var (ctx : ModuleContext) (default : Value)
    (var_name : String) (callback : Unit → Value) : Value × ModuleContext :=
  let p_var : PVar := ⟨var_name, callback⟩
  let ctx' := { ctx with pvar_index := aset ctx.pvar_index p_var.name p_var }
  match aget ctx'.db.data p_var.name with
  | Option.none => (default, ctx')
  | some v => (v, ctx')

/-- `ModuleContext.reset()`: the source iterates over `self.db` while
deleting from it (`for var in self.db: del self.db[var]`).  Under CPython
dict semantics, on a nonempty dict the first key is deleted and the next
iteration step raises `RuntimeError: dictionary changed size during
iteration`, so `sync` is never reached; only an already-empty dict
completes the loop and syncs. -/
def ModuleContext.reset (ctx : ModuleContext) (fs : FS) :
    Except PyErr Unit × ModuleContext × FS :=
  match ctx.db.data with
  | [] =>
    let r := ctx.db.sync fs
    (r.1, ctx, r.2)
  | (k, _) :: _ =>
    (.error (.runtimeError ("dictionary changed size during iteration")),
     { ctx with db := { ctx.db with data := adel ctx.db.data k } }, fs)

/-- `ModuleContext.all()`: returns the backing store itself. -/
def ModuleContext.all (ctx : ModuleContext) : PersistentDict :=
  ctx.db

/-- `ModuleContext.save()`: write each registered variable's current
callback value into the store under its recorded name, then `sync`. -/
def ModuleContext.save (ctx : ModuleContext) (fs : FS) :
    Except PyErr Unit × ModuleContext × FS :=
  let data2 :=
    List.foldl (fun d np => aset d np.1 (PVar.value np.2)) ctx.db.data ctx.pvar_index
  let db2 := { ctx.db with data := data2 }
  let r := db2.sync fs
  (r.1, { ctx with db := db2 }, r.2)

/-- `ModuleContext.configure(*, auto_save=False, file_format=False,
**dump_args)`: an omitted keyword argument (modelled as `Option.none`)
falls back to its Python default `False`; in particular an omitted
`file_format` leaves the store's `file_format` attribute holding the bool
`False`, not a `Format`. -/
def ModuleContext.configure (ctx : ModuleContext) (auto_save : Option Bool)
    (file_format : Option Format) (dump_args : List (String × Value)) :
    ModuleContext :=
  let asv := match auto_save with | some b => b | Option.none => false
  let ffv := match file_format with | some f => FileFormat.fmt f
                                    | Option.none => FileFormat.pybool false
  { ctx with
      auto_save := asv,
      db := { ctx.db with file_format := ffv, dump_args := dump_args } }

/-- `get_context(*, abs_path=..., **config_params)` on the absolute-path
branch.  (Deriving a path from the calling module via `inspect.stack` is
the out-of-scope `LocationResolver` collaborator; `db_path` is the resolved
path.  `dir_parent_exists` models the `db_dir.parent.exists()` validity
check.)  A registered context with a matching path is returned unchanged —
the repeat call's configuration arguments are never applied; otherwise a
new context is constructed, configured, appended to the registry, and
returned. -/
def get_context (db_path : String) (auto_save : Option Bool)
    (file_format : Option Format) (dump_args : List (String × Value))
    (contexts : List ModuleContext) (fs : FS) (dir_parent_exists : Bool) :
    Except PyErr (ModuleContext × List ModuleContext) :=
  if dir_parent_exists then
    match contexts.find? (fun ctx => db_path = ctx.path) with
    | some ctx => .ok (ctx, contexts)
    | Option.none =>
      match ModuleContext.init fs db_path with
      | .error e => .error e
      | .ok ctx0 =>
        .ok (ctx0.configure auto_save file_format dump_args,
             contexts ++ [ctx0.configure auto_save file_format dump_args])
  else .error (.exception (db_path ++ (" is not valid")))

/-- `_clean_up()` (registered with `atexit`, also reached via the SIGINT
handler's `exit()`): for each registered context in order, save it when its
`auto_save` flag is set; any exception from a save is replaced by
`RuntimeError(f"Failed saving to {path}")` and raised, which ends the loop
— the remaining contexts' saves are not attempted. -/
def _clean_up : List ModuleContext → FS → Except PyErr Unit × FS
  | [], fs => (.ok (), fs)
  | ctx :: rest, fs =>
    if ctx.auto_save then
      match ctx.save fs with
      | (.ok _, _, fs') => _clean_up rest fs'
      | (.error _, _, fs') =>
        (.error (.runtimeError (("Failed saving to ") ++ ctx.path)), fs')
    else _clean_up rest fs

/-! ### Ordered-dict lemmas -/

theorem aget_aset_self {α : Type} (m : List (String × α)) (k : String) (v : α) :
    aget (aset m k v) k = some v := by
  induction m with
  | nil => simp [aset, aget]
  | cons kv t ih =>
    by_cases h : kv.1 = k
    · obtain ⟨k', v'⟩ := kv
      simp only at h
      simp [aset, aget, h]
    · obtain ⟨k', v'⟩ := kv
      simp only at h
      simp [aset, aget, h, ih]

theorem aget_aset_ne {α : Type} (m : List (String × α)) (k k' : String) (v : α)
    (h : k' ≠ k) : aget (aset m k v) k' = aget m k' := by
  induction m with
  | nil => simp [aset, aget, Ne.symm h]
  | cons kv t ih =>
    obtain ⟨k0, v0⟩ := kv
    by_cases h0 : k0 = k
    · subst h0
      simp [aset, aget, Ne.symm h]
    · simp [aset, aget, h0, ih]

theorem aget_eq_none_of_not_mem {α : Type} (m : List (String × α)) (k : String)
    (h : k ∉ akeys m) : aget m k = Option.none := by
  induction m with
  | nil => rfl
  | cons kv t ih =>
    obtain ⟨k0, v0⟩ := kv
    simp only [akeys, List.map_cons, List.mem_cons] at h
    push_neg at h
    simp only [akeys] at ih
    simp [aget, Ne.symm h.1, ih h.2]

theorem akeys_aset_mem {α : Type} (m : List (String × α)) (k : String) (v : α)
    (h : k ∈ akeys m) : akeys (aset m k v) = akeys m := by
  induction m with
  | nil => simp [akeys] at h
  | cons kv t ih =>
    obtain ⟨k0, v0⟩ := kv
    by_cases h0 : k0 = k
    · simp [aset, akeys, h0]
    · simp only [akeys, List.map_cons, List.mem_cons] at h
      rcases h with h | h

      · exact absurd h.symm h0
      · simp only [akeys] at ih
        simp [aset, akeys, h0, ih h]

theorem akeys_aset_notMem {α : Type} (m : List (String × α)) (k : String) (v : α)
    (h : k ∉ akeys m) : akeys (aset m k v) = akeys m ++ [k] := by
  induction m with
  | nil => simp [aset, akeys]
  | cons kv t ih =>
    obtain ⟨k0, v0⟩ := kv
    simp only [akeys, List.map_cons, List.mem_cons] at h
    push_neg at h
    simp only [akeys] at ih
    simp [aset, akeys, Ne.symm h.1, ih h.2]

theorem mem_akeys_aset_self {α : Type} (m : List (String × α)) (k : String) (v : α) :
    k ∈ akeys (aset m k v) := by
  by_cases h : k ∈ akeys m
  · rw [akeys_aset_mem m k v h]; exact h
  · rw [akeys_aset_notMem m k v h]; simp

theorem mem_akeys_aset_of_mem {α : Type} (m : List (String × α)) (k k' : String)
    (v : α) (h : k' ∈ akeys m) : k' ∈ akeys (aset m k v) := by
  by_cases h0 : k ∈ akeys m
  · rw [akeys_aset_mem m k v h0]; exact h
  · rw [akeys_aset_notMem m k v h0]; simp [h]

theorem nodup_akeys_aset {α : Type} (m : List (String × α)) (k : String) (v : α)
    (h : (akeys m).Nodup) : (akeys (aset m k v)).Nodup := by
  by_cases h0 : k ∈ akeys m
  · rw [akeys_aset_mem m k v h0]; exact h
  · rw [akeys_aset_notMem m k v h0]
    simp [List.nodup_append, h, h0]

theorem aset_append_of_notMem {α : Type} (m : List (String × α)) (k : String)
    (v : α) (h : k ∉ akeys m) : aset m k v = m ++ [(k, v)] := by
  induction m with
  | nil => simp [aset]
  | cons kv t ih =>
    obtain ⟨k0, v0⟩ := kv
    simp only [akeys, List.map_cons, List.mem_cons] at h
    push_neg at h
    simp only [akeys] at ih
    simp [aset, Ne.symm h.1, ih h.2]

/-- The value the last occurrence of key `k` in the update list carries. -/
def alast {α : Type} : List (String × α) → String → Option α
  | [], _ => Option.none
  | kv :: t, k =>
    match alast t k with
    | some v => some v
    | Option.none => if kv.1 = k then some kv.2 else Option.none

theorem aupdate_cons {α : Type} (m : List (String × α)) (kv : String × α)
    (t : List (String × α)) :
    aupdate m (kv :: t) = aupdate (aset m kv.1 kv.2) t := rfl

theorem aget_aupdate {α : Type} (u : List (String × α)) :
    ∀ (m : List (String × α)) (k : String),
    aget (aupdate m u) k =
      match alast u k with
      | some v => some v
      | Option.none => aget m k := by
  induction u with
  | nil => intro m k; rfl
  | cons kv t ih =>
    intro m k
    obtain ⟨k0, v0⟩ := kv
    rw [aupdate_cons, ih]
    cases hl : alast t k with
    | some v => simp [alast, hl]
    | none =>
      by_cases h0 : k0 = k
      · subst h0
        simp [alast, hl, aget_aset_self]
      · simp [alast, hl, h0, aget_aset_ne m k0 k v0 (fun he => h0 he.symm)]

theorem mem_akeys_aupdate_of_mem {α : Type} (u : List (String × α)) :
    ∀ (m : List (String × α)) (k : String), k ∈ akeys m →
    k ∈ akeys (aupdate m u) := by
  induction u with
  | nil => intro m k h; exact h
  | cons kv t ih =>
    intro m k h
    rw [aupdate_cons]
    exact ih _ k (mem_akeys_aset_of_mem m kv.1 k kv.2 h)

theorem mem_akeys_aupdate_self {α : Type} (u : List (String × α)) :
    ∀ (m : List (String × α)), ∀ kv ∈ u, kv.1 ∈ akeys (aupdate m u) := by
  induction u with
  | nil => intro m kv h; simp at h
  | cons kv0 t ih =>
    intro m kv h
    rcases List.mem_cons.mp h with h | h
    · subst h
      rw [aupdate_cons]
      exact mem_akeys_aupdate_of_mem t _ kv.1 (mem_akeys_aset_self m kv.1 kv.2)
    · rw [aupdate_cons]
      exact ih _ kv h

theorem akeys_aupdate_of_subset {α : Type} (u : List (String × α)) :
    ∀ (m : List (String × α)), (∀ kv ∈ u, kv.1 ∈ akeys m) →
    akeys (aupdate m u) = akeys m := by
  induction u with
  | nil => intro m _; rfl
  | cons kv t ih =>
    intro m h
    rw [aupdate_cons]
    have hk : kv.1 ∈ akeys m := h kv (by simp)
    rw [ih _ (fun kv2 h2 => mem_akeys_aset_of_mem m kv.1 kv2.1 kv.2 (h kv2 (by simp [h2])))]
    exact akeys_aset_mem m kv.1 kv.2 hk

theorem nodup_akeys_aupdate {α : Type} (u : List (String × α)) :
    ∀ (m : List (String × α)), (akeys m).Nodup → (akeys (aupdate m u)).Nodup := by
  induction u with
  | nil => intro m h; exact h
  | cons kv t ih =>
    intro m h
    rw [aupdate_cons]
    exact ih _ (nodup_akeys_aset m kv.1 kv.2 h)

theorem alist_ext {α : Type} :
    ∀ (m1 m2 : List (String × α)), akeys m1 = akeys m2 → (akeys m1).Nodup →
    (∀ k, aget m1 k = aget m2 k) → m1 = m2 := by
  intro m1
  induction m1 with
  | nil =>
    intro m2 hkeys _ _
    cases m2 with
    | nil => rfl
    | cons kv t => simp [akeys] at hkeys
  | cons kv1 t1 ih =>
    intro m2 hkeys hnd hget
    cases m2 with
    | nil => simp [akeys] at hkeys
    | cons kv2 t2 =>
      obtain ⟨k1, v1⟩ := kv1
      obtain ⟨k2, v2⟩ := kv2
      simp only [akeys, List.map_cons, List.cons.injEq] at hkeys
      obtain ⟨hk, hkeys'⟩ := hkeys
      subst hk
      have hv : v1 = v2 := by
        have h1 := hget k1
        simp [aget] at h1
        exact h1
      subst hv
      simp only [akeys, List.map_cons, List.nodup_cons] at hnd
      have ht : t1 = t2 := by
        apply ih t2 hkeys' hnd.2
        intro k
        by_cases hkk : k = k1
        · subst hkk
          have hn1 : aget t1 k = Option.none :=
            aget_eq_none_of_not_mem t1 k hnd.1
          have hn2 : aget t2 k = Option.none := by
            apply aget_eq_none_of_not_mem t2 k
            rw [show akeys t2 = akeys t1 from hkeys'.symm]
            exact hnd.1
          rw [hn1, hn2]
        · have h1 := hget k
          simp [aget, Ne.symm hkk] at h1
          exact h1
      rw [ht]

theorem aupdate_idem {α : Type} (m u : List (String × α))
    (h : (akeys m).Nodup) :
    aupdate (aupdate m u) u = aupdate m u := by
  apply alist_ext
  · exact akeys_aupdate_of_subset u (aupdate m u) (mem_akeys_aupdate_self u m)
  · exact nodup_akeys_aupdate u _ (nodup_akeys_aupdate u m h)
  · intro k
    rw [aget_aupdate u (aupdate m u) k, aget_aupdate u m k]
    cases hl : alast u k with
    | some v => simp [hl]
    | none => simp [hl, aget_aupdate u m k]

theorem aupdate_append_of_disjoint {α : Type} (u : List (String × α)) :
    ∀ (acc : List (String × α)), (∀ k ∈ akeys u, k ∉ akeys acc) →
    (akeys u).Nodup → aupdate acc u = acc ++ u := by
  induction u with
  | nil => intro acc _ _; simp [aupdate]
  | cons kv t ih =>
    intro acc hdisj hnd
    obtain ⟨k0, v0⟩ := kv
    rw [aupdate_cons]
    simp only [akeys, List.map_cons, List.nodup_cons] at hnd
    have h0 : k0 ∉ akeys acc := hdisj k0 (by simp [akeys])
    rw [aset_append_of_notMem acc k0 v0 h0]
    rw [ih (acc ++ [(k0, v0)]) ?_ hnd.2]
    · simp
    · intro k hk
      have hkt : k ∈ akeys t := hk
      have hka : k ∉ akeys acc := hdisj k (by
        simp only [akeys, List.map_cons, List.mem_cons]
        right
        exact hkt)
      have hk0 : k ≠ k0 := by
        intro he
        rw [he] at hkt
        exact hnd.1 hkt
      simp only [akeys, List.map_append, List.map_cons, List.map_nil]
      intro hcmem
      rw [List.mem_append] at hcmem
      rcases hcmem with hc | hc
      · exact hka hc
      · rw [List.mem_singleton] at hc
        exact hk0 hc

theorem aupdate_nil_of_nodup {α : Type} (u : List (String × α))
    (h : (akeys u).Nodup) : aupdate [] u = u := by
  have := aupdate_append_of_disjoint u [] (by simp [akeys]) h
  simpa using this

theorem aget_adel_ne {α : Type} (m : List (String × α)) (k k' : String)
    (h : k' ≠ k) : aget (adel m k) k' = aget m k' := by
  induction m with
  | nil => rfl
  | cons kv t ih =>
    obtain ⟨k0, v0⟩ := kv
    by_cases h0 : k0 = k
    · subst h0
      simp [adel, aget, Ne.symm h]
    · simp [adel, aget, h0, ih]

theorem aget_adel_self_nodup {α : Type} (m : List (String × α)) (k : String)
    (h : (akeys m).Nodup) : aget (adel m k) k = Option.none := by
  induction m with
  | nil => rfl
  | cons kv t ih =>
    obtain ⟨k0, v0⟩ := kv
    simp only [akeys, List.map_cons, List.nodup_cons] at h
    by_cases h0 : k0 = k
    · subst h0
      simp only [adel, if_pos rfl]
      exact aget_eq_none_of_not_mem t k0 h.1
    · simp [adel, aget, h0, ih h.2]

theorem tmpname_ne (p : String) : p ++ (".tmp") ≠ p := by
  intro he
  have hl := congrArg String.length he
  rw [String.length_append] at hl
  have h4 : (".tmp" : String).length = 4 := rfl
  omega

theorem save_data_eq (pv : List (String × PVar)) :
    ∀ d : List (String × Value),
    List.foldl (fun d np => aset d np.1 (PVar.value np.2)) d pv =
      aupdate d (pv.map (fun np => (np.1, PVar.value np.2))) := by
  induction pv with
  | nil => intro d; rfl
  | cons np t ih =>
    intro d
    rw [List.foldl_cons, ih, List.map_cons, aupdate_cons]

theorem find?_eq_some_pred {α : Type} (p : α → Bool) :
    ∀ (l : List α) (a : α), l.find? p = some a → p a = true := by
  intro l
  induction l with
  | nil => intro a h; simp [List.find?] at h
  | cons x t ih =>
    intro a h
    cases hp : p x with
    | true =>
      rw [List.find?_cons_of_pos _ hp] at h
      simp only [Option.some.injEq] at h
      rw [← h]
      exact hp
    | false =>
      have hp' : ¬p x = true := by simp [hp]
      rw [List.find?_cons_of_neg _ hp'] at h
      exact ih a h

theorem find?_append_right {α : Type} (p : α → Bool) (l : List α) (x : α)
    (hl : l.find? p = Option.none) (hx : p x = true) :
    (l ++ [x]).find? p = some x := by
  induction l with
  | nil => simp [List.find?_cons_of_pos, hx]
  | cons a t ih =>
    cases hp : p a with
    | true =>
      rw [List.find?_cons_of_pos _ hp] at hl
      exact absurd hl (by simp)
    | false =>
      have hp' : ¬p a = true := by simp [hp]
      rw [List.find?_cons_of_neg _ hp'] at hl
      rw [List.cons_append, List.find?_cons_of_neg _ hp']
      exact ih hl

/-! ### Claim theorems -/

theorem sync_error_spec (store : PersistentDict) (fs : FS) (e : PyErr)
    (hfs : (akeys fs).Nodup) (h : store.dump = .error e) :
    (store.sync fs).1 = .error e ∧
    aget (store.sync fs).2 store.file_name = aget fs store.file_name ∧
    aget (store.sync fs).2 (store.file_name ++ (".tmp")) = Option.none := by
  have hs : store.sync fs =
      (.error e, adel fs (store.file_name ++ (".tmp"))) := by
    unfold PersistentDict.sync
    rw [h]
  rw [hs]
  exact ⟨rfl,
    aget_adel_ne fs (store.file_name ++ (".tmp")) store.file_name
      (Ne.symm (tmpname_ne store.file_name)),
    aget_adel_self_nodup fs (store.file_name ++ (".tmp")) hfs⟩

/-- C1: for every store and every `sync()` call that fails during encoding or
writing (e.g. an encode error raised mid-way), the file at the target path is
byte-for-byte unchanged from before the call, the temporary `.tmp` sibling
file does not remain afterward, and the failure is re-raised to the
caller. -/
theorem C1_sync_failure_atomic (store : PersistentDict) (fs : FS) (e : PyErr)
    (hfs : (akeys fs).Nodup) (h : store.dump = .error e) :
    (store.sync fs).1 = .error e ∧
    aget (store.sync fs).2 store.file_name = aget fs store.file_name ∧
    aget (store.sync fs).2 (store.file_name ++ (".tmp")) = Option.none :=
  sync_error_spec store fs e hfs h

/-- A store whose JSON encode fails mid-way: it holds a value that is not
JSON serializable. -/
def storeJsonBad : PersistentDict :=
  ⟨[(("x" : String), Value.obj 0)], ("/db.pydb"), .fmt .JSON, []⟩

/-- A filesystem holding prior contents for both the target file and a stale
temporary sibling. -/
def fsPrior : FS :=
  [(("/db.pydb" : String), ['o', 'l', 'd']), (("/db.pydb.tmp" : String), ['t'])]

/-- Witness for C1 at a concrete store and filesystem. -/
theorem C1_sync_failure_atomic_witness :
    storeJsonBad.dump = .error (.typeError ("Object is not JSON serializable")) ∧
    ((storeJsonBad.sync fsPrior).1 =
        .error (.typeError ("Object is not JSON serializable")) ∧
      aget (storeJsonBad.sync fsPrior).2 storeJsonBad.file_name =
        aget fsPrior storeJsonBad.file_name ∧
      aget (storeJsonBad.sync fsPrior).2 (storeJsonBad.file_name ++ (".tmp")) =
        Option.none) :=
  ⟨by decide,
   C1_sync_failure_atomic storeJsonBad fsPrior
     (.typeError ("Object is not JSON serializable")) (by decide) (by decide)⟩

/-- C2 [code_bug]: opening a store for a path whose file does not exist does
not start with an empty mapping — the constructor raises
`Exception("File not available")`, so the open fails. -/
theorem C2_init_missing_file_raises (fs : FS) (filename : String)
    (fileformat : FileFormat) (dump_args : Option (List (String × Value)))
    (h : aget fs filename = Option.none) :
    PersistentDict.init fs filename fileformat dump_args =
      .error (.exception ("File not available")) := by
  unfold PersistentDict.init
  rw [h]

/-- Witness for C2: an empty filesystem (the file does not exist). -/
theorem C2_init_missing_file_raises_witness :
    aget ([] : FS) ("/fresh.pydb") = Option.none ∧
    PersistentDict.init ([] : FS) ("/fresh.pydb") (.fmt .PICKLE) Option.none =
      .error (.exception ("File not available")) :=
  ⟨by decide,
   C2_init_missing_file_raises ([] : FS) ("/fresh.pydb") (.fmt .PICKLE)
     Option.none (by decide)⟩

/-- File content that decodes under no loader: pickle and JSON reject it and
its single csv row has three fields, which `dict.update` rejects. -/
def csvBadContent : List Char := ['a', ',', 'b', ',', 'c', '\n']

/-- A filesystem whose stored file fails every decoder. -/
def fsUndecodable : FS := [(("/db.pydb" : String), csvBadContent)]

/-- C3 counterexample: with existing content that fails to decode under every
known codec, opening the store does not raise — `load`'s `ValueError` is
swallowed and the open succeeds with an empty mapping. -/
theorem C3_undecodable_opens_empty_cex :
    loadContent csvBadContent = Option.none ∧
    PersistentDict.init fsUndecodable ("/db.pydb") (.fmt .PICKLE) Option.none =
      .ok ⟨[], ("/db.pydb"), .fmt .PICKLE, []⟩ := by decide

/-- C3 amended: when the file exists but its content fails to decode under
every known codec, `load` raises `ValueError`, but the constructor catches it
(`except ValueError: pass`) and the open succeeds with an empty in-memory
mapping; no error reaches the caller. -/
theorem C3_load_failure_swallowed (fs : FS) (filename : String)
    (fileformat : FileFormat) (dump_args : Option (List (String × Value)))
    (content : List Char) (hc : aget fs filename = some content)
    (hl : loadContent content = Option.none) :
    PersistentDict.init fs filename fileformat dump_args =
      .ok ⟨[], filename, fileformat,
        match dump_args with | some l => l | Option.none => []⟩ := by
  simp only [PersistentDict.init, hc, hl]

/-- Witness for the amended C3 at the concrete undecodable file. -/
theorem C3_load_failure_swallowed_witness :
    aget fsUndecodable ("/db.pydb") = some csvBadContent ∧
    loadContent csvBadContent = Option.none ∧
    PersistentDict.init fsUndecodable ("/db.pydb") (.fmt .PICKLE) Option.none =
      .ok ⟨[], ("/db.pydb"), .fmt .PICKLE, []⟩ :=
  ⟨by decide, by decide,
   C3_load_failure_swallowed fsUndecodable ("/db.pydb") (.fmt .PICKLE)
     Option.none csvBadContent (by decide) (by decide)⟩

/-- C4: for every registration of a variable, a name already present in the
backing store yields the stored value (the supplied default is ignored), and
an absent name yields the supplied default — for both `make_var` and
`make_dict`. -/
theorem C4_register_precedence (ctx : ModuleContext) (default : Value)
    (name : String) (callback : Unit → Value) :
    (aget ctx.db.data name = Option.none →
      (ctx.make_var default name callback).1 = default ∧
      (ctx.make_dict default name).1 = default) ∧
    (∀ v, aget ctx.db.data name = some v →
      (ctx.make_var default name callback).1 = v ∧
      (ctx.make_dict default name).1 = v) := by
  constructor
  · intro h
    constructor
    · simp [ModuleContext.make_var, h]
    · simp [ModuleContext.make_dict, h]
  · intro v h
    constructor
    · simp [ModuleContext.make_var, h]
    · simp [ModuleContext.make_dict, h]

/-- A context whose store already holds the key `count`. -/
def ctxReg : ModuleContext :=
  ⟨true, ("/db.pydb"),
   ⟨[(("count" : String), Value.int 7)], ("/db.pydb"), .fmt .PICKLE, []⟩, []⟩

/-- Witness for C4: registering `count` returns the stored `7`, not the
default; registering an absent name returns the default. -/
theorem C4_register_precedence_witness :
    ((ctxReg.make_var (Value.int 0) ("count") (fun _ => Value.int 0)).1 =
        Value.int 7 ∧
      (ctxReg.make_dict (Value.int 0) ("count")).1 = Value.int 7) ∧
    ((ctxReg.make_var (Value.int 42) ("absent") (fun _ => Value.int 0)).1 =
        Value.int 42 ∧
      (ctxReg.make_dict (Value.int 42) ("absent")).1 = Value.int 42) :=
  ⟨(C4_register_precedence ctxReg (Value.int 0) ("count")
      (fun _ => Value.int 0)).2 (Value.int 7) (by decide),
   (C4_register_precedence ctxReg (Value.int 42) ("absent")
      (fun _ => Value.int 0)).1 (by decide)⟩

/-- A context whose store holds two keys. -/
def ctxTwoKeys : ModuleContext :=
  ⟨true, ("/db.pydb"),
   ⟨[(("a" : String), Value.int 1), (("b" : String), Value.int 2)],
    ("/db.pydb"), .fmt .PICKLE, []⟩, []⟩

/-- C5 [code_bug]: `reset()` on a context holding two keys raises
`RuntimeError` (the dict is mutated while being iterated), deletes only the
first key, and never syncs — afterwards `all()` is not empty and nothing was
written to disk. -/
theorem C5_reset_raises :
    (ctxTwoKeys.reset []).1 =
      .error (.runtimeError ("dictionary changed size during iteration")) ∧
    (ctxTwoKeys.reset []).2.1.all.data = [(("b" : String), Value.int 2)] ∧
    (ctxTwoKeys.reset []).2.2 = [] := by decide

/-- C6 amended: during the shutdown sweep, a failing save of one context is
replaced by `RuntimeError("Failed saving to <path>")` and raised immediately:
the sweep aborts with the filesystem exactly as the failing save left it, and
the remaining contexts' saves are not attempted (errors are not
collected). -/
theorem C6_clean_up_aborts (ctx : ModuleContext) (rest : List ModuleContext)
    (fs : FS) (e : PyErr) (hauto : ctx.auto_save = true)
    (hsave : (ctx.save fs).1 = .error e) :
    _clean_up (ctx :: rest) fs =
      (.error (.runtimeError (("Failed saving to ") ++ ctx.path)),
       (ctx.save fs).2.2) := by
  rcases hp : ctx.save fs with ⟨r, c2, fs2⟩
  rw [hp] at hsave
  simp only at hsave
  subst hsave
  simp [_clean_up, hauto, hp]

/-- A context whose save always fails: its `file_format` holds the bool
`False` that `configure` leaves when the argument is omitted. -/
def ctxBadFmt : ModuleContext :=
  ⟨true, ("/a.pydb"), ⟨[], ("/a.pydb"), .pybool false, []⟩, []⟩

/-- A context whose save succeeds and writes its file. -/
def ctxGoodPickle : ModuleContext :=
  ⟨true, ("/b.pydb"),
   ⟨[(("k" : String), Value.int 1)], ("/b.pydb"), .fmt .PICKLE, []⟩, []⟩

/-- C6 counterexample: with two auto-save contexts whose first save fails,
`_clean_up` raises the first context's `RuntimeError` and the second
context's file is never written — though its save on its own succeeds and
writes the file.  The failure aborts the sweep instead of being collected
and reported after it. -/
theorem C6_clean_up_abort_cex :
    (_clean_up [ctxBadFmt, ctxGoodPickle] []).1 =
      .error (.runtimeError ("Failed saving to /a.pydb")) ∧
    aget (_clean_up [ctxBadFmt, ctxGoodPickle] []).2 ("/b.pydb") = Option.none ∧
    (ctxGoodPickle.save []).1 = .ok () ∧
    aget (ctxGoodPickle.save []).2.2 ("/b.pydb") =
      some (pickleDump [(("k" : String), Value.int 1)]) := by decide

/-- Witness for the amended C6. -/
theorem C6_clean_up_aborts_witness :
    ctxBadFmt.auto_save = true ∧
    (ctxBadFmt.save []).1 =
      .error (.attributeError ("bool object has no attribute name")) ∧
    _clean_up [ctxBadFmt, ctxGoodPickle] [] =
      (.error (.runtimeError (("Failed saving to ") ++ ctxBadFmt.path)),
       (ctxBadFmt.save []).2.2) :=
  ⟨by decide, by decide,
   C6_clean_up_aborts ctxBadFmt [ctxGoodPickle] []
     (.attributeError ("bool object has no attribute name")) (by decide) (by decide)⟩

/-- C8: calling `save()` twice in a row — every registered callback of the
model is a pure function, so its output is unchanged between the calls —
succeeds the second time as well and produces byte-identical on-disk files
after each of the two calls. -/
theorem C8_save_idempotent (ctx : ModuleContext) (fs : FS)
    (hnd : (akeys ctx.db.data).Nodup)
    (hok : (ctx.save fs).1 = .ok ()) :
    ((ctx.save fs).2.1.save (ctx.save fs).2.2).1 = .ok () ∧
    aget ((ctx.save fs).2.1.save (ctx.save fs).2.2).2.2 ctx.db.file_name =
      aget (ctx.save fs).2.2 ctx.db.file_name := by
  simp only [ModuleContext.save, save_data_eq] at hok ⊢
  simp only
    [aupdate_idem ctx.db.data
      (ctx.pvar_index.map (fun np => (np.1, PVar.value np.2))) hnd]
  rcases hd : PersistentDict.dump
      ⟨aupdate ctx.db.data (List.map (fun np => (np.1, np.2.value)) ctx.pvar_index),
       ctx.db.file_name, ctx.db.file_format, ctx.db.dump_args⟩ with e | cs
  · simp only [PersistentDict.sync, hd] at hok
    exact absurd hok (by simp)
  · constructor
    · simp [PersistentDict.sync, hd]
    · simp only [PersistentDict.sync, hd]
      rw [aget_aset_self, aget_aset_self]

/-- A context with one registered variable over an empty JSON store. -/
def ctxSave : ModuleContext :=
  ⟨true, ("/db.pydb"), ⟨[], ("/db.pydb"), .fmt .JSON, []⟩,
   [(("count" : String), ⟨("count"), fun _ => Value.int 5⟩)]⟩

/-- Witness for C8 at a concrete context. -/
theorem C8_save_idempotent_witness :
    (akeys ctxSave.db.data).Nodup ∧ (ctxSave.save []).1 = .ok () ∧
    (((ctxSave.save []).2.1.save (ctxSave.save []).2.2).1 = .ok () ∧
      aget ((ctxSave.save []).2.1.save (ctxSave.save []).2.2).2.2
          ctxSave.db.file_name =
        aget (ctxSave.save []).2.2 ctxSave.db.file_name) :=
  ⟨by decide, by decide, C8_save_idempotent ctxSave [] (by decide) (by decide)⟩

theorem get_context_path_eq (db_path : String) (as : Option Bool)
    (ff : Option Format) (da : List (String × Value))
    (contexts : List ModuleContext) (fs : FS) (ctx : ModuleContext)
    (ctxs' : List ModuleContext)
    (h : get_context db_path as ff da contexts fs true = .ok (ctx, ctxs')) :
    ctx.path = db_path := by
  unfold get_context at h
  rw [if_pos rfl] at h
  cases hf : contexts.find? (fun c => db_path = c.path) with
  | some c =>
    rw [hf] at h
    simp only [Except.ok.injEq, Prod.mk.injEq] at h
    obtain ⟨rfl, rfl⟩ := h
    exact (of_decide_eq_true (find?_eq_some_pred _ contexts _ hf)).symm
  | none =>
    rw [hf] at h
    cases hi : ModuleContext.init fs db_path with
    | error e => rw [hi] at h; simp at h
    | ok ctx0 =>
      rw [hi] at h
      simp only [Except.ok.injEq, Prod.mk.injEq] at h
      obtain ⟨rfl, rfl⟩ := h
      have hp0 : ctx0.path = db_path := by
        unfold ModuleContext.init at hi
        cases hpd : PersistentDict.init fs db_path (.fmt .PICKLE) Option.none with
        | ok db =>
          rw [hpd] at hi
          simp only [Except.ok.injEq] at hi
          rw [← hi]
        | error e => rw [hpd] at hi; simp at hi
      simp [ModuleContext.configure, hp0]

/-- C9: two context-creation calls resolving to the same storage path return
the same Context instance — the registry is unchanged and the second call's
configuration arguments are ignored (the first caller's configuration wins)
— while calls resolving to different paths return distinct instances. -/
theorem C9_get_context_dedup :
    (∀ (db_path : String) (as1 as2 : Option Bool) (ff1 ff2 : Option Format)
       (da1 da2 : List (String × Value)) (contexts ctxs1 : List ModuleContext)
       (fs : FS) (ctx1 : ModuleContext),
       get_context db_path as1 ff1 da1 contexts fs true = .ok (ctx1, ctxs1) →
       get_context db_path as2 ff2 da2 ctxs1 fs true = .ok (ctx1, ctxs1)) ∧
    (∀ (p1 p2 : String) (as1 as2 : Option Bool) (ff1 ff2 : Option Format)
       (da1 da2 : List (String × Value))
       (contexts ctxs1 ctxs2 : List ModuleContext) (fs : FS)
       (ctx1 ctx2 : ModuleContext),
       p1 ≠ p2 →
       get_context p1 as1 ff1 da1 contexts fs true = .ok (ctx1, ctxs1) →
       get_context p2 as2 ff2 da2 ctxs1 fs true = .ok (ctx2, ctxs2) →
       ctx1 ≠ ctx2) := by
  constructor
  · intro db_path as1 as2 ff1 ff2 da1 da2 contexts ctxs1 fs ctx1 h1
    have hpath := get_context_path_eq db_path as1 ff1 da1 contexts fs ctx1 ctxs1 h1
    unfold get_context at h1 ⊢
    rw [if_pos rfl] at h1 ⊢
    cases hf : contexts.find? (fun c => db_path = c.path) with
    | some c =>
      rw [hf] at h1
      simp only [Except.ok.injEq, Prod.mk.injEq] at h1
      obtain ⟨rfl, rfl⟩ := h1
      rw [hf]
    | none =>
      rw [hf] at h1
      cases hi : ModuleContext.init fs db_path with
      | error e => rw [hi] at h1; simp at h1
      | ok ctx0 =>
        rw [hi] at h1
        simp only [Except.ok.injEq, Prod.mk.injEq] at h1
        obtain ⟨rfl, rfl⟩ := h1
        have hfind : (contexts ++ [ctx0.configure as1 ff1 da1]).find?
            (fun c => db_path = c.path) = some (ctx0.configure as1 ff1 da1) :=
          find?_append_right _ contexts _ hf (decide_eq_true hpath.symm)
        rw [hfind]
  · intro p1 p2 as1 as2 ff1 ff2 da1 da2 contexts ctxs1 ctxs2 fs ctx1 ctx2 hne h1 h2
    have hp1 := get_context_path_eq p1 as1 ff1 da1 contexts fs ctx1 ctxs1 h1
    have hp2 := get_context_path_eq p2 as2 ff2 da2 ctxs1 fs ctx2 ctxs2 h2
    intro he
    rw [he] at hp1
    exact hne (hp1.symm.trans hp2)

/-- A filesystem with two existing (empty) files. -/
def fs0 : FS := [(("/a.pydb" : String), []), (("/b.pydb" : String), [])]

/-- The context `get_context` creates for the first path (after the
configure call with every argument omitted). -/
def ctxA : ModuleContext :=
  ⟨false, ("/a.pydb"), ⟨[], ("/a.pydb"), .pybool false, []⟩, []⟩

/-- The context `get_context` creates for the second path. -/
def ctxB : ModuleContext :=
  ⟨false, ("/b.pydb"), ⟨[], ("/b.pydb"), .pybool false, []⟩, []⟩

/-- Witness for C9: the repeated call for `/a.pydb` (with different
configuration arguments) returns the same instance and leaves the registry
unchanged; the call for `/b.pydb` returns a distinct instance. -/
theorem C9_get_context_dedup_witness :
    get_context ("/a.pydb") (some true) (some Format.JSON) [] [ctxA] fs0 true =
      .ok (ctxA, [ctxA]) ∧
    ctxA ≠ ctxB :=
  ⟨C9_get_context_dedup.1 ("/a.pydb") Option.none (some true) Option.none
      (some Format.JSON) [] [] [] [ctxA] fs0 ctxA rfl,
   C9_get_context_dedup.2 ("/a.pydb") ("/b.pydb") Option.none Option.none
      Option.none Option.none [] [] [] [ctxA] [ctxA, ctxB] fs0 ctxA ctxB
      (by decide) rfl rfl⟩

theorem dump_pybool (store : PersistentDict) (b : Bool)
    (h : store.file_format = .pybool b) :
    store.dump = .error (.attributeError ("bool object has no attribute name")) := by
  unfold PersistentDict.dump
  rw [h]

/-- C10: `configure` with the `auto_save` or `file_format` argument omitted
overwrites those settings with the Python defaults `False`: `auto_save`
becomes false and the store's `file_format` becomes the non-`Format` value
`False`.  Context creation always invokes `configure` with the caller's
config parameters, so a context created without an explicit `file_format`
has `file_format` `False`, and any subsequent `sync()`/`save()` on it raises
(the dump `else` branch's `self.file_format.name` raises `AttributeError`)
instead of writing a file. -/
theorem C10_configure_defaults :
    (∀ (ctx : ModuleContext) (da : List (String × Value)),
       (ctx.configure Option.none Option.none da).auto_save = false ∧
       (ctx.configure Option.none Option.none da).db.file_format = .pybool false) ∧
    (∀ (db_path : String) (da : List (String × Value))
       (contexts ctxs' : List ModuleContext) (fs : FS) (ctx : ModuleContext),
       contexts.find? (fun c => db_path = c.path) = Option.none →
       get_context db_path Option.none Option.none da contexts fs true =
         .ok (ctx, ctxs') →
       ctx.db.file_format = .pybool false ∧ ctx.auto_save = false) ∧
    (∀ (store : PersistentDict) (fs : FS), store.file_format = .pybool false →
       (akeys fs).Nodup →
       (store.sync fs).1 =
         .error (.attributeError ("bool object has no attribute name")) ∧
       aget (store.sync fs).2 store.file_name = aget fs store.file_name) ∧
    (∀ (ctx : ModuleContext) (fs : FS), ctx.db.file_format = .pybool false →
       (ctx.save fs).1 =
         .error (.attributeError ("bool object has no attribute name"))) := by
  refine ⟨?_, ?_, ?_, ?_⟩
  · intro ctx da
    constructor
    · simp [ModuleContext.configure]
    · simp [ModuleContext.configure]
  · intro db_path da contexts ctxs' fs ctx hfind h2
    unfold get_context at h2
    rw [if_pos rfl, hfind] at h2
    cases hi : ModuleContext.init fs db_path with
    | error e => rw [hi] at h2; simp at h2
    | ok ctx0 =>
      rw [hi] at h2
      simp only [Except.ok.injEq, Prod.mk.injEq] at h2
      obtain ⟨rfl, rfl⟩ := h2
      constructor
      · simp [ModuleContext.configure]
      · simp [ModuleContext.configure]
  · intro store fs hff hnd
    have hd := dump_pybool store false hff
    have hs := sync_error_spec store fs
      (.attributeError ("bool object has no attribute name")) hnd hd
    exact ⟨hs.1, hs.2.1⟩
  · intro ctx fs hff
    have hd := dump_pybool
      ⟨List.foldl (fun d np => aset d np.1 (PVar.value np.2)) ctx.db.data ctx.pvar_index,
       ctx.db.file_name, ctx.db.file_format, ctx.db.dump_args⟩ false hff
    simp [ModuleContext.save, PersistentDict.sync, hd]

/-- Witness for C10 at concrete contexts (`ctxA` is exactly what
`get_context` creates for a fresh path when no `file_format` is passed). -/
theorem C10_configure_defaults_witness :
    ((ctxReg.configure Option.none Option.none []).auto_save = false ∧
      (ctxReg.configure Option.none Option.none []).db.file_format = .pybool false) ∧
    (ctxA.db.file_format = .pybool false ∧ ctxA.auto_save = false) ∧
    ((ctxA.db.sync fs0).1 =
        .error (.attributeError ("bool object has no attribute name")) ∧
      aget (ctxA.db.sync fs0).2 ctxA.db.file_name = aget fs0 ctxA.db.file_name) ∧
    (ctxA.save fs0).1 =
      .error (.attributeError ("bool object has no attribute name")) :=
  ⟨C10_configure_defaults.1 ctxReg [],
   C10_configure_defaults.2.1 ("/a.pydb") [] [] [ctxA] fs0 ctxA rfl rfl,
   C10_configure_defaults.2.2.1 ctxA.db fs0 rfl (by decide),
   C10_configure_defaults.2.2.2 ctxA fs0 rfl⟩

/-- C7 counterexample: saving the mapping `a ↦ 1, b ↦ 2` under the tabular
(CSV) format and reloading it does not give back the mapping — the values
return as the strings `"1"` and `"2"`. -/
theorem C7_csv_roundtrip_cex :
    (loadContent
        (csvDump [(("a" : String), Value.int 1), (("b" : String), Value.int 2)])).map
      (aupdate []) =
      some [(("a" : String), Value.str ("1")), (("b" : String), Value.str ("2"))] ∧
    some [(("a" : String), Value.str ("1")), (("b" : String), Value.str ("2"))] ≠
      some [(("a" : String), Value.int 1), (("b" : String), Value.int 2)] := by decide

/-- C7 amended: `decode(encode(m)) == m` holds for the BINARY (pickle) and
JSON formats on the value shapes each supports (for JSON: JSON-serializable
values and distinct keys); under the tabular (CSV) format every value is
written as its `str()` and read back as a raw string, so saving
`a ↦ 1, b ↦ 2` and reloading yields `a ↦ "1", b ↦ "2"`, not the original
mapping. -/
theorem C7_codec_roundtrip :
    (∀ (store : PersistentDict) (cs : List Char),
       store.file_format = .fmt .JSON → store.dump = .ok cs →
       jsonSafeMapping store.data = true →
       (loadContent cs).map (aupdate []) = some store.data) ∧
    (∀ (store : PersistentDict) (cs : List Char),
       store.file_format = .fmt .PICKLE → store.dump = .ok cs →
       (akeys store.data).Nodup →
       (loadContent cs).map (aupdate []) = some store.data) ∧
    ((loadContent
        (csvDump [(("a" : String), Value.int 1), (("b" : String), Value.int 2)])).map
      (aupdate []) =
      some [(("a" : String), Value.str ("1")), (("b" : String), Value.str ("2"))]) := by
  refine ⟨?_, ?_, by decide⟩
  · intro store cs hff hdump hsafe
    have hnd : (akeys store.data).Nodup := by
      simp only [jsonSafeMapping, Bool.and_eq_true, decide_eq_true_eq] at hsafe
      exact hsafe.1
    unfold PersistentDict.dump at hdump
    rw [hff] at hdump
    cases hj : jsonDumpChars store.data with
    | none => rw [hj] at hdump; simp at hdump
    | some cs' =>
      rw [hj] at hdump
      simp only [Except.ok.injEq] at hdump
      subst hdump
      have hjl := jsonLoadText_jsonDump store.data cs' hj
      obtain ⟨e, he, hC⟩ : ∃ e, jsonEntriesChars store.data = some e ∧
          '{' :: e ++ ['}'] = cs' := by
        simp only [jsonDumpChars, Option.map_eq_some'] at hj
        exact hj
      have hpb : pickleLoadBytes cs' = Option.none := by
        rw [← hC]
        exact pickleLoadBytes_head_ne '{' (e ++ ['}']) (by decide)
      unfold loadContent
      rw [show pickleLoadText cs' = Option.none from rfl, hpb, hjl]
      simp only [Option.orElse, Option.map_some']
      rw [aupdate_nil_of_nodup store.data hnd]
  · intro store cs hff hdump hnd
    unfold PersistentDict.dump at hdump
    rw [hff] at hdump
    simp only [Except.ok.injEq] at hdump
    subst hdump
    unfold loadContent
    rw [show pickleLoadText (pickleDump store.data) = Option.none from rfl,
      pickleLoadBytes_pickleDump store.data]
    simp only [Option.orElse, Option.map_some']
    rw [aupdate_nil_of_nodup store.data hnd]

/-- A one-entry store under the JSON format. -/
def storeJsonOne : PersistentDict :=
  ⟨[(("a" : String), Value.int 1)], ("/db.pydb"), .fmt .JSON, []⟩

/-- A one-entry store under the PICKLE format. -/
def storePickleOne : PersistentDict :=
  ⟨[(("a" : String), Value.int 1)], ("/db.pydb"), .fmt .PICKLE, []⟩

/-- Witness for the amended C7 at concrete stores. -/
theorem C7_codec_roundtrip_witness :
    (storeJsonOne.dump = .ok ['{', '"', 'a', '"', ':', ' ', '1', '}'] ∧
      (loadContent ['{', '"', 'a', '"', ':', ' ', '1', '}']).map (aupdate []) =
        some storeJsonOne.data) ∧
    (storePickleOne.dump = .ok (pickleDump [(("a" : String), Value.int 1)]) ∧
      (loadContent (pickleDump [(("a" : String), Value.int 1)])).map (aupdate []) =
        some storePickleOne.data) :=
  ⟨⟨by decide,
    C7_codec_roundtrip.1 storeJsonOne ['{', '"', 'a', '"', ':', ' ', '1', '}']
      rfl (by decide) (by decide)⟩,
   ⟨by decide,
    C7_codec_roundtrip.2.1 storePickleOne (pickleDump [(("a" : String), Value.int 1)])
      rfl (by decide) (by decide)⟩⟩

end PVars
